import Mathlib

/-!
Verification of the utern tailing engine against its specification.

The relevant Go sources are `cloudwatch/stream.go` (the `ListStreams`
pagination loop) and the tailing client (`Tail`, `tail`,
`showNewStream`).  They are embedded shallowly: the remote backend is
represented by the sequence of page results its paginators deliver,
and every loop of the source becomes a structurally recursive function
over that sequence.  Machine integers (`int64` epoch milliseconds) are
modelled as `Int`; the code only compares and copies them, so no
overflow is reachable.
-/

set_option autoImplicit false

/-- A filtered log event as consumed by the event loop of `tail`:
the loop reads only the event id and the timestamp. -/
structure FLEvent where
  eventId : String
  timestamp : Int
deriving DecidableEq

/-- Modelled from the spec: the dedup cache package
(`github.com/knqyf263/utern/cache`) is not among the provided sources;
spec section 4.1 gives its contract.  One namespace (one log group) is
modelled as an association list from event id to the stored timestamp.
`Load` is true iff the id was stored and not yet expired. -/
def cacheLoad (c : List (String × Int)) (id : String) : Bool :=
  c.any (fun p => p.1 == id)

/-- Modelled from the spec: `Store` records the event id as seen at the
given timestamp, overwriting the timestamp if the id is already
present. -/
def cacheStore (c : List (String × Int)) (id : String) (ts : Int) :
    List (String × Int) :=
  (id, ts) :: c.filter (fun p => !(p.1 == id))

/-- Modelled from the spec: `Expire` removes every entry whose stored
timestamp is strictly less than the watermark. -/
def cacheExpire (c : List (String × Int)) (w : Int) : List (String × Int) :=
  c.filter (fun p => !(decide (p.2 < w)))

/-- The per-group state of the tail loop: the group's cache namespace,
the watermark `lastEventTime`, and the list of events pushed to the
output channel so far. -/
structure TailState where
  cache : List (String × Int)
  lastEventTime : Int
  out : List FLEvent
deriving DecidableEq

/-- One step of the event loop of `tail`: if the cache already holds
the event id the event is dropped; otherwise it is stored, pushed to
the output channel, and the watermark is raised to the event timestamp
when that is larger. -/
def processEvent (st : TailState) (ev : FLEvent) : TailState :=
  if cacheLoad st.cache ev.eventId then st
  else
    { cache := cacheStore st.cache ev.eventId ev.timestamp,
      lastEventTime :=
        if st.lastEventTime < ev.timestamp then ev.timestamp
        else st.lastEventTime,
      out := st.out ++ [ev] }

/-- The event loop of `tail` over the events of one fetched page. -/
def processEvents (st : TailState) (evs : List FLEvent) : TailState :=
  evs.foldl processEvent st

/-- Outcome of one `NextPage` call of the `FilterLogEvents` paginator,
as observed by the fetch loop of `tail`: a page of events, a throttling
error (retried after a pause), or any other error (fatal). -/
inductive FetchPage where
  | ok (events : List FLEvent)
  | throttle
  | err
deriving DecidableEq

/-- The fetch pagination loop of `tail`: pages are processed in order,
throttling retries (modelled by moving to the next recorded outcome),
any other error aborts, and after the last page the cache namespace is
expired at the final watermark. -/
def runFetchPass : TailState → List FetchPage → Except Unit TailState
  | st, [] => .ok st
  | st, FetchPage.ok evs :: rest =>
    let st' := processEvents st evs
    match rest with
    | [] => .ok { st' with cache := cacheExpire st'.cache st'.lastEventTime }
    | _ :: _ => runFetchPass st' rest
  | st, FetchPage.throttle :: rest => runFetchPass st rest
  | st, FetchPage.err :: _ => .error ()

/-- The watermark a group tailer starts from: the configured start
time, in epoch milliseconds (`cwl.config.StartTime.UTC().Unix() * 1000`). -/
def tailInitialWatermark (startTimeSec : Int) : Int :=
  startTimeSec * 1000

/-- A log stream as returned by the backend `DescribeLogStreams` call;
the four data fields are `nil` exactly when the stream never received
an event. -/
structure BackendStream where
  logStreamName : String
  firstEventTimestamp : Option Int
  lastEventTimestamp : Option Int
  lastIngestionTime : Option Int
  uploadSequenceToken : Option String
deriving DecidableEq

/-- The `LogStream` record built by `ListStreams`; the source only ever
fills `Name` and `LastEventTimestamp`, leaving the other pointer fields
`nil`. -/
structure LogStream where
  name : String
  lastEventTimestamp : Option Int
  firstEventTimestamp : Option Int
  lastIngestionTime : Option Int
  uploadSequenceToken : Option String
deriving DecidableEq

/-- The record appended by `ListStreams` for a matching stream:
`Name` is copied and `LastEventTimestamp` is set from the backend
stream's `LastIngestionTime`. -/
def mkLogStream (s : BackendStream) : LogStream :=
  { name := s.logStreamName,
    lastEventTimestamp := s.lastIngestionTime,
    firstEventTimestamp := none,
    lastIngestionTime := none,
    uploadSequenceToken := none }

/-- The empty-stream test of `ListStreams`: any of the four data
fields being `nil` excludes the stream. -/
def streamHasNilField (s : BackendStream) : Bool :=
  s.firstEventTimestamp.isNone || s.lastEventTimestamp.isNone ||
    s.lastIngestionTime.isNone || s.uploadSequenceToken.isNone

/-- Configuration read by `ListStreams`: the stream name prefix (prefix
mode when nonempty) and the stream name regex filter, abstracted as a
Boolean predicate on names. -/
structure LSConfig where
  logStreamNamePfx : String
  logStreamNameFilter : String → Bool

/-- The loop state of `ListStreams`: accumulated matching streams, the
`hasUpdatedStream` flag, and the running minimum ingestion time over
all examined non-empty streams. -/
structure LSState where
  streams : List LogStream
  hasUpdatedStream : Bool
  minLastIngestionTime : Int
deriving DecidableEq

/-- Initial `ListStreams` loop state: no streams, flag false, minimum
at `math.MaxInt64`. -/
def lsInit : LSState :=
  { streams := [], hasUpdatedStream := false,
    minLastIngestionTime := 9223372036854775807 }

/-- The body of the inner stream loop of `ListStreams`: skip empty
streams; update the running minimum ingestion time for every non-empty
stream; then apply the name filter and the `since` cutoff on
`LastIngestionTime`; matches set `hasUpdatedStream` and are appended. -/
def lsProcessStream (cfg : LSConfig) (since : Int) (st : LSState)
    (s : BackendStream) : LSState :=
  if streamHasNilField s then st
  else
    let st1 : LSState :=
      { st with minLastIngestionTime :=
          if s.lastIngestionTime.getD 0 < st.minLastIngestionTime then
            s.lastIngestionTime.getD 0
          else st.minLastIngestionTime }
    if cfg.logStreamNameFilter s.logStreamName = false then st1
    else if s.lastIngestionTime.getD 0 < since then st1
    else
      { st1 with hasUpdatedStream := true,
                 streams := st1.streams ++ [mkLogStream s] }

/-- The inner stream loop of `ListStreams` over one page. -/
def lsProcessPage (cfg : LSConfig) (since : Int) (st : LSState)
    (bs : List BackendStream) : LSState :=
  bs.foldl (lsProcessStream cfg since) st

/-- Outcome of one `NextPage` call of the `DescribeLogStreams`
paginator. -/
inductive StreamPage where
  | ok (streams : List BackendStream)
  | resourceNotFound
  | throttling
  | otherError
deriving DecidableEq

/-- Result of `ListStreams`: the Go return value (streams or an
error), instrumented with the number of `NextPage` calls the loop
performed. -/
structure LSResult where
  result : Except Unit (List LogStream)
  pagesFetched : Nat

/-- The recency-mode early-exit test of `ListStreams`, taken after a
page has been processed: stop when the running minimum ingestion time
is at least `since`, or when no page so far contributed a matching
stream. -/
def lsStop (since : Int) (st : LSState) : Bool :=
  decide (since ≤ st.minLastIngestionTime) || !st.hasUpdatedStream

/-- The pagination loop of `ListStreams`.  A `ResourceNotFound` page
returns the streams accumulated so far with no error; a throttling
page pauses and returns `nil, nil`; any other error is wrapped and
returned.  After processing a page the loop breaks immediately in
prefix mode, and otherwise breaks on `lsStop`. -/
def listStreamsLoop (cfg : LSConfig) (since : Int) :
    LSState → List StreamPage → LSResult
  | st, [] => ⟨.ok st.streams, 0⟩
  | st, StreamPage.resourceNotFound :: _ => ⟨.ok st.streams, 1⟩
  | st, StreamPage.throttling :: _ => ⟨.ok [], 1⟩
  | st, StreamPage.otherError :: _ => ⟨.error (), 1⟩
  | st, StreamPage.ok bs :: rest =>
    let st' := lsProcessPage cfg since st bs
    if cfg.logStreamNamePfx ≠ "" then ⟨.ok st'.streams, 1⟩
    else if lsStop since st' then ⟨.ok st'.streams, 1⟩
    else
      let r := listStreamsLoop cfg since st' rest
      ⟨r.result, r.pagesFetched + 1⟩

/-- `ListStreams` of `cloudwatch/stream.go`, as a function of the page
outcomes the backend paginator delivers. -/
def listStreams (cfg : LSConfig) (since : Int) (pages : List StreamPage) :
    LSResult :=
  listStreamsLoop cfg since lsInit pages

/-- The match test applied by the stream loop: non-empty, name filter
passes, and `LastIngestionTime` at least `since`. -/
def isMatch (cfg : LSConfig) (since : Int) (s : BackendStream) : Bool :=
  !streamHasNilField s && cfg.logStreamNameFilter s.logStreamName &&
    decide (since ≤ s.lastIngestionTime.getD 0)

/-- Declarative running minimum of `LastIngestionTime` over the
non-empty streams of a page, starting from `m`. -/
def pageMinIng (m : Int) (bs : List BackendStream) : Int :=
  bs.foldl
    (fun m s =>
      if streamHasNilField s then m else min m (s.lastIngestionTime.getD 0))
    m

/-- All backend streams appearing in any `ok` page of a page
sequence. -/
def pagesStreams (pages : List StreamPage) : List BackendStream :=
  pages.foldr
    (fun p acc =>
      match p with
      | StreamPage.ok bs => bs ++ acc
      | _ => acc)
    []

/-- Configuration read by the tail loop body: the start time and the
optional end time, both in epoch seconds (`none` when no end time is
configured, matching the `nil` test on `cwl.config.EndTime`). -/
structure TailConfig where
  startTimeSec : Int
  endTimeSec : Option Int

/-- The `EndTime` bound placed on the fetch request when an end time
is configured (`aws.Int64(cwl.config.EndTime.UTC().Unix() * 1000)`);
`none` leaves the request unbounded. -/
def fetchEndTime (cfg : TailConfig) : Option Int :=
  cfg.endTimeSec.map (fun t => t * 1000)

/-- How one iteration of the polling loop of `tail` ends. -/
inductive TailOutcome where
  | listError
  | skipEmpty
  | streamCapExceeded
  | fetchError
  | finishedEnd
  | nextWaiting
deriving DecidableEq

/-- Result of one iteration of the polling loop of `tail`:
the control-flow outcome, the updated tail state, and (as
instrumentation) whether a `FilterLogEvents` fetch was built and run. -/
structure TailIterResult where
  outcome : TailOutcome
  state : TailState
  fetchAttempted : Bool
deriving DecidableEq

/-- One iteration of the polling loop of `tail`, after the shared tick
was received: list the group's streams at the current watermark;
an error aborts; zero streams loop back to waiting; more than 100
streams fail fatally before any fetch; otherwise the fetch pass runs
and, when it completes, the iteration finishes for good whenever an
end time is configured (`cwl.config.EndTime != nil`) and otherwise
loops back to waiting. -/
def tailIteration (cfg : TailConfig) (lscfg : LSConfig) (st : TailState)
    (streamPages : List StreamPage) (fetchPages : List FetchPage) :
    TailIterResult :=
  match (listStreams lscfg st.lastEventTime streamPages).result with
  | .error _ => ⟨.listError, st, false⟩
  | .ok streams =>
    if streams.length = 0 then ⟨.skipEmpty, st, false⟩
    else if 100 < streams.length then ⟨.streamCapExceeded, st, false⟩
    else
      match runFetchPass st fetchPages with
      | .error _ => ⟨.fetchError, st, true⟩
      | .ok st' =>
        ⟨if cfg.endTimeSec.isSome then .finishedEnd else .nextWaiting,
          st', true⟩

/-- The streams a group's `ListStreams` call yields when it does not
fail (used to state what the initial discovery pass announces). -/
def groupStreamsOk (lscfg : LSConfig) (since : Int)
    (backend : String → List StreamPage) (g : String) : List LogStream :=
  match (listStreams lscfg since (backend g)).result with
  | .ok s => s
  | .error _ => []

/-- The initial per-group discovery pass run by `Tail` before the group
tailers start: for each group in order, one shared tick is consumed,
`ListStreams` is called at the configured start time, and the returned
streams are announced.  The second component counts the ticks consumed
from the shared `start` channel. -/
def initialAnnouncePass (lscfg : LSConfig) (since : Int)
    (backend : String → List StreamPage) :
    List String → Except Unit (List (String × LogStream)) × Nat
  | [] => (.ok [], 0)
  | g :: gs =>
    match (listStreams lscfg since (backend g)).result with
    | .error _ => (.error (), 1)
    | .ok streams =>
      let r := initialAnnouncePass lscfg since backend gs
      match r.1 with
      | .error _ => (.error (), r.2 + 1)
      | .ok anns => (.ok (streams.map (fun s => (g, s)) ++ anns), r.2 + 1)

/-- The timestamp `showNewStream` hands to `formatUnixTime` for the
announcement line: the `LastEventTimestamp` field of the announced
stream. -/
def showNewStreamTime (s : LogStream) : Option Int :=
  s.lastEventTimestamp

/-- Reference form of the recency-mode pagination of `ListStreams`
over error-free pages: the state after the pages actually consumed,
paired with how many pages were consumed. -/
def lsRun (cfg : LSConfig) (since : Int) :
    LSState → List (List BackendStream) → LSState × Nat
  | st, [] => (st, 0)
  | st, bs :: rest =>
    let st' := lsProcessPage cfg since st bs
    if lsStop since st' then (st', 1)
    else
      let r := lsRun cfg since st' rest
      (r.1, r.2 + 1)

/-! ## Lemmas about the dedup cache -/

lemma cacheLoad_filter_ne (c : List (String × Int)) (id e : String)
    (hne : e ≠ id) :
    (c.filter (fun p => !(p.1 == id))).any (fun p => p.1 == e)
      = c.any (fun p => p.1 == e) := by
  induction c with
  | nil => rfl
  | cons p c ih =>
    by_cases hp : p.1 = id
    · have h1 : (p.1 == id) = true := by simp [hp]
      have h2 : (p.1 == e) = false := by
        simp only [beq_eq_false_iff_ne, ne_eq, hp]
        exact fun h => hne h.symm
      simp [List.filter_cons, List.any_cons, h1, h2, ih]
    · have h1 : (p.1 == id) = false := by simp [hp]
      simp [List.filter_cons, List.any_cons, h1, ih]

lemma cacheLoad_store (c : List (String × Int)) (id e : String) (ts : Int) :
    cacheLoad (cacheStore c id ts) e = ((e == id) || cacheLoad c e) := by
  by_cases h : e = id
  · subst h
    simp [cacheLoad, cacheStore, List.any_cons]
  · have h1 : (id == e) = false := by
      simp only [beq_eq_false_iff_ne, ne_eq]
      exact fun hh => h hh.symm
    have h2 : (e == id) = false := by simp [h]
    simp [cacheLoad, cacheStore, List.any_cons, h1, h2,
      cacheLoad_filter_ne c id e h]

/-! ## Lemmas about the event loop of `tail` -/

lemma processEvents_countP (e : String) :
    ∀ (evs : List FLEvent) (c : List (String × Int)) (w : Int)
      (out : List FLEvent),
      ((processEvents ⟨c, w, out⟩ evs).out.countP (fun ev => ev.eventId == e))
        = out.countP (fun ev => ev.eventId == e) +
            (if cacheLoad c e then 0
             else min 1 (evs.countP (fun ev => ev.eventId == e))) := by
  intro evs
  induction evs with
  | nil =>
    intro c w out
    simp [processEvents]
  | cons ev rest ih =>
    intro c w out
    by_cases hl : cacheLoad c ev.eventId
    · have hstep : processEvents ⟨c, w, out⟩ (ev :: rest)
          = processEvents ⟨c, w, out⟩ rest := by
        simp [processEvents, processEvent, hl]
      rw [hstep, ih]
      by_cases he : ev.eventId = e
      · have hce : cacheLoad c e = true := he ▸ hl
        simp [hce]
      · have hpe : (ev.eventId == e) = false := by simp [he]
        rw [List.countP_cons]
        simp [hpe]
    · have hstep : processEvents ⟨c, w, out⟩ (ev :: rest)
          = processEvents
              ⟨cacheStore c ev.eventId ev.timestamp,
               if w < ev.timestamp then ev.timestamp else w,
               out ++ [ev]⟩ rest := by
        simp [processEvents, processEvent, hl]
      rw [hstep, ih]
      by_cases he : ev.eventId = e
      · subst he
        have hce : cacheLoad c ev.eventId = false := by
          simpa using hl
        have hce' : cacheLoad (cacheStore c ev.eventId ev.timestamp) ev.eventId
            = true := by
          rw [cacheLoad_store]; simp
        rw [List.countP_append, List.countP_cons]
        simp [hce, hce', Nat.min_eq_left (Nat.succ_le_succ (Nat.zero_le _)),
          Nat.add_comm]
      · have hpe : (ev.eventId == e) = false := by simp [he]
        have hce' : cacheLoad (cacheStore c ev.eventId ev.timestamp) e
            = cacheLoad c e := by
          rw [cacheLoad_store]
          have hns : (e == ev.eventId) = false := by
            simp only [beq_eq_false_iff_ne, ne_eq]
            exact fun hh => he hh.symm
          simp [hns]
        rw [List.countP_append, List.countP_cons, List.countP_cons]
        simp [hpe, hce']

lemma processEvents_decomp :
    ∀ (evs : List FLEvent) (c : List (String × Int)) (w : Int)
      (out : List FLEvent),
      processEvents ⟨c, w, out⟩ evs =
        ⟨(processEvents ⟨c, w, []⟩ evs).cache,
         (processEvents ⟨c, w, []⟩ evs).lastEventTime,
         out ++ (processEvents ⟨c, w, []⟩ evs).out⟩ := by
  intro evs
  induction evs with
  | nil =>
    intro c w out
    simp [processEvents]
  | cons ev rest ih =>
    intro c w out
    by_cases hl : cacheLoad c ev.eventId
    · have h1 : processEvents ⟨c, w, out⟩ (ev :: rest)
          = processEvents ⟨c, w, out⟩ rest := by
        simp [processEvents, processEvent, hl]
      have h2 : processEvents ⟨c, w, []⟩ (ev :: rest)
          = processEvents ⟨c, w, []⟩ rest := by
        simp [processEvents, processEvent, hl]
      rw [h1, h2, ih]
    · have h1 : processEvents ⟨c, w, out⟩ (ev :: rest)
          = processEvents
              ⟨cacheStore c ev.eventId ev.timestamp,
               if w < ev.timestamp then ev.timestamp else w,
               out ++ [ev]⟩ rest := by
        simp [processEvents, processEvent, hl]
      have h2 : processEvents ⟨c, w, []⟩ (ev :: rest)
          = processEvents
              ⟨cacheStore c ev.eventId ev.timestamp,
               if w < ev.timestamp then ev.timestamp else w,
               [ev]⟩ rest := by
        simp [processEvents, processEvent, hl]
    -- rewrite both sides through the induction hypothesis
      rw [h1, h2,
        ih (cacheStore c ev.eventId ev.timestamp)
          (if w < ev.timestamp then ev.timestamp else w) (out ++ [ev]),
        ih (cacheStore c ev.eventId ev.timestamp)
          (if w < ev.timestamp then ev.timestamp else w) [ev]]
      simp

lemma processEvents_w_formula :
    ∀ (evs : List FLEvent) (c : List (String × Int)) (w : Int),
      (processEvents ⟨c, w, []⟩ evs).lastEventTime
        = ((processEvents ⟨c, w, []⟩ evs).out.map
            (fun ev => ev.timestamp)).foldl max w := by
  intro evs
  induction evs with
  | nil =>
    intro c w
    simp [processEvents]
  | cons ev rest ih =>
    intro c w
    by_cases hl : cacheLoad c ev.eventId
    · have h2 : processEvents ⟨c, w, []⟩ (ev :: rest)
          = processEvents ⟨c, w, []⟩ rest := by
        simp [processEvents, processEvent, hl]
      rw [h2, ih]
    · have hmax : (if w < ev.timestamp then ev.timestamp else w)
          = max w ev.timestamp := by
        rcases lt_or_le w ev.timestamp with h | h
        · simp [h, max_eq_right (le_of_lt h)]
        · simp [not_lt.mpr h, max_eq_left h]
      have h2 : processEvents ⟨c, w, []⟩ (ev :: rest)
          = processEvents
              ⟨cacheStore c ev.eventId ev.timestamp, max w ev.timestamp,
               [ev]⟩ rest := by
        simp [processEvents, processEvent, hl, hmax]
      rw [h2,
        processEvents_decomp rest (cacheStore c ev.eventId ev.timestamp)
          (max w ev.timestamp) [ev]]
      simp only [List.singleton_append, List.map_cons, List.foldl_cons]
      exact ih (cacheStore c ev.eventId ev.timestamp) (max w ev.timestamp)

lemma le_foldl_max : ∀ (l : List Int) (w : Int), w ≤ l.foldl max w := by
  intro l
  induction l with
  | nil => intro w; exact le_refl w
  | cons a l ih =>
    intro w
    calc w ≤ max w a := le_max_left w a
    _ ≤ l.foldl max (max w a) := ih (max w a)
    _ = (a :: l).foldl max w := by simp

lemma processEvents_w_mono :
    ∀ (evs : List FLEvent) (st : TailState),
      st.lastEventTime ≤ (processEvents st evs).lastEventTime := by
  intro evs
  induction evs with
  | nil => intro st; exact le_refl _
  | cons ev rest ih =>
    intro st
    by_cases hl : cacheLoad st.cache ev.eventId
    · have h2 : processEvents st (ev :: rest) = processEvents st rest := by
        simp [processEvents, processEvent, hl]
      rw [h2]; exact ih st
    · have h2 : processEvents st (ev :: rest)
          = processEvents
              ⟨cacheStore st.cache ev.eventId ev.timestamp,
               if st.lastEventTime < ev.timestamp then ev.timestamp
               else st.lastEventTime,
               st.out ++ [ev]⟩ rest := by
        simp [processEvents, processEvent, hl]
      rw [h2]
      refine le_trans ?_ (ih _)
      by_cases hw : st.lastEventTime < ev.timestamp
      · simpa [hw] using le_of_lt hw
      · simp [hw]

lemma runFetchPass_w_mono :
    ∀ (pages : List FetchPage) (st s' : TailState),
      runFetchPass st pages = .ok s' →
      st.lastEventTime ≤ s'.lastEventTime := by
  intro pages
  induction pages with
  | nil =>
    intro st s' h
    simp only [runFetchPass] at h
    cases h
    exact le_refl _
  | cons p rest ih =>
    intro st s' h
    cases p with
    | ok evs =>
      cases rest with
      | nil =>
        simp only [runFetchPass] at h
        cases h
        exact processEvents_w_mono evs st
      | cons q qs =>
        simp only [runFetchPass] at h
        exact le_trans (processEvents_w_mono evs st) (ih _ _ h)
    | throttle =>
      simp only [runFetchPass] at h
      exact ih _ _ h
    | err =>
      simp only [runFetchPass] at h
      cases h

/-! ## Lemmas about `ListStreams` -/

lemma if_lt_eq_min (m x : Int) : (if x < m then x else m) = min m x := by
  rcases lt_or_le x m with h | h
  · simp [h, min_eq_right (le_of_lt h)]
  · simp [not_lt.mpr h, min_eq_left h]

lemma isMatch_not_nil (cfg : LSConfig) (since : Int) (s : BackendStream)
    (h : isMatch cfg since s = true) : streamHasNilField s = false := by
  simp only [isMatch, Bool.and_eq_true, Bool.not_eq_true'] at h
  exact h.1.1

lemma lsProcessStream_spec (cfg : LSConfig) (since : Int) (st : LSState)
    (s : BackendStream) :
    lsProcessStream cfg since st s =
      ⟨st.streams ++ (if isMatch cfg since s then [mkLogStream s] else []),
       st.hasUpdatedStream || isMatch cfg since s,
       if streamHasNilField s then st.minLastIngestionTime
       else min st.minLastIngestionTime (s.lastIngestionTime.getD 0)⟩ := by
  by_cases hnil : streamHasNilField s
  · have hm : isMatch cfg since s = false := by simp [isMatch, hnil]
    simp [lsProcessStream, hnil, hm]
  · by_cases hf : cfg.logStreamNameFilter s.logStreamName
    · by_cases hs : s.lastIngestionTime.getD 0 < since
      · have hm : isMatch cfg since s = false := by
          simp [isMatch, hnil, hf, not_le.mpr hs]
        simp [lsProcessStream, hnil, hf, hs, hm, if_lt_eq_min]
      · have hm : isMatch cfg since s = true := by
          simp [isMatch, hnil, hf, not_lt.mp hs]
        simp [lsProcessStream, hnil, hf, hs, hm, if_lt_eq_min]
    · have hf' : cfg.logStreamNameFilter s.logStreamName = false := by
        simpa using hf

      have hm : isMatch cfg since s = false := by simp [isMatch, hf']
      simp [lsProcessStream, hnil, hf', hm, if_lt_eq_min]

lemma lsProcessPage_spec (cfg : LSConfig) (since : Int) :
    ∀ (bs : List BackendStream) (st : LSState),
      lsProcessPage cfg since st bs =
        ⟨st.streams ++ (bs.filter (isMatch cfg since)).map mkLogStream,
         st.hasUpdatedStream || bs.any (isMatch cfg since),
         pageMinIng st.minLastIngestionTime bs⟩ := by
  intro bs
  induction bs with
  | nil =>
    intro st
    simp [lsProcessPage, pageMinIng]
  | cons s rest ih =>
    intro st
    have hstep : lsProcessPage cfg since st (s :: rest)
        = lsProcessPage cfg since (lsProcessStream cfg since st s) rest := by
      simp [lsProcessPage]
    rw [hstep, ih, lsProcessStream_spec]
    by_cases hm : isMatch cfg since s
    · have hnil : streamHasNilField s = false := isMatch_not_nil cfg since s hm
      simp [hm, hnil, pageMinIng, List.filter_cons, List.any_cons,
        Bool.or_assoc]
    · by_cases hnil : streamHasNilField s
      · simp [hm, hnil, pageMinIng, List.filter_cons, List.any_cons]
      · simp [hm, hnil, pageMinIng, List.filter_cons, List.any_cons]

lemma foldl_page_streams (cfg : LSConfig) (since : Int) :
    ∀ (pbs : List (List BackendStream)) (st : LSState),
      (pbs.foldl (lsProcessPage cfg since) st).streams
        = st.streams ++
          (pbs.map
            (fun bs => (bs.filter (isMatch cfg since)).map mkLogStream)).flatten := by
  intro pbs
  induction pbs with
  | nil => intro st; simp
  | cons bs rest ih =>
    intro st
    rw [List.foldl_cons, ih, lsProcessPage_spec]
    simp

lemma foldl_page_hasUpd (cfg : LSConfig) (since : Int) :
    ∀ (pbs : List (List BackendStream)) (st : LSState),
      (pbs.foldl (lsProcessPage cfg since) st).hasUpdatedStream
        = (st.hasUpdatedStream ||
            pbs.any (fun bs => bs.any (isMatch cfg since))) := by
  intro pbs
  induction pbs with
  | nil => intro st; simp
  | cons bs rest ih =>
    intro st
    rw [List.foldl_cons, ih, lsProcessPage_spec]
    simp [Bool.or_assoc]

lemma foldl_page_min (cfg : LSConfig) (since : Int) :
    ∀ (pbs : List (List BackendStream)) (st : LSState),
      (pbs.foldl (lsProcessPage cfg since) st).minLastIngestionTime
        = pbs.foldl pageMinIng st.minLastIngestionTime := by
  intro pbs
  induction pbs with
  | nil => intro st; simp
  | cons bs rest ih =>
    intro st
    rw [List.foldl_cons, ih, lsProcessPage_spec]
    rfl

lemma mem_lsProcessPage_streams (cfg : LSConfig) (since : Int)
    (st : LSState) (bs : List BackendStream) (ls : LogStream)
    (h : ls ∈ (lsProcessPage cfg since st bs).streams) :
    ls ∈ st.streams ∨
      ∃ s, s ∈ bs ∧ streamHasNilField s = false ∧ ls = mkLogStream s := by
  rw [lsProcessPage_spec] at h
  rcases List.mem_append.mp h with h | h
  · exact Or.inl h
  · right
    rcases List.mem_map.mp h with ⟨s, hs, rfl⟩
    rcases List.mem_filter.mp hs with ⟨hmem, hmatch⟩
    exact ⟨s, hmem, isMatch_not_nil cfg since s hmatch, rfl⟩

lemma lsRun_fst (cfg : LSConfig) (since : Int) :
    ∀ (pbs : List (List BackendStream)) (st : LSState),
      (lsRun cfg since st pbs).1
        = (pbs.take (lsRun cfg since st pbs).2).foldl
            (lsProcessPage cfg since) st := by
  intro pbs
  induction pbs with
  | nil => intro st; simp [lsRun]
  | cons bs rest ih =>
    intro st
    by_cases hstop : lsStop since (lsProcessPage cfg since st bs)
    · simp [lsRun, hstop]
    · simp only [lsRun, hstop, if_false, Bool.false_eq_true]
      rw [List.take_succ_cons, List.foldl_cons]
      exact ih (lsProcessPage cfg since st bs)

lemma lsRun_le_len (cfg : LSConfig) (since : Int) :
    ∀ (pbs : List (List BackendStream)) (st : LSState),
      (lsRun cfg since st pbs).2 ≤ pbs.length := by
  intro pbs
  induction pbs with
  | nil => intro st; simp [lsRun]
  | cons bs rest ih =>
    intro st
    by_cases hstop : lsStop since (lsProcessPage cfg since st bs)
    · simp [lsRun, hstop, Nat.succ_le_succ (Nat.zero_le _)]
    · simp only [lsRun, hstop, if_false, Bool.false_eq_true, List.length_cons]
      exact Nat.succ_le_succ (ih _)

lemma lsRun_pos (cfg : LSConfig) (since : Int) :
    ∀ (pbs : List (List BackendStream)) (st : LSState), pbs ≠ [] →
      1 ≤ (lsRun cfg since st pbs).2 := by
  intro pbs
  cases pbs with
  | nil => intro st h; exact absurd rfl h
  | cons bs rest =>
    intro st _
    by_cases hstop : lsStop since (lsProcessPage cfg since st bs)
    · simp [lsRun, hstop]
    · simp [lsRun, hstop]

lemma lsRun_last (cfg : LSConfig) (since : Int) :
    ∀ (pbs : List (List BackendStream)) (st : LSState),
      (lsRun cfg since st pbs).2 = pbs.length ∨
        lsStop since (lsRun cfg since st pbs).1 = true := by
  intro pbs
  induction pbs with
  | nil => intro st; exact Or.inl rfl
  | cons bs rest ih =>
    intro st
    by_cases hstop : lsStop since (lsProcessPage cfg since st bs)
    · right
      simp [lsRun, hstop]
    · simp only [lsRun, hstop, if_false, Bool.false_eq_true, List.length_cons]
      rcases ih (lsProcessPage cfg since st bs) with h | h

      · exact Or.inl (by simp [h])
      · exact Or.inr h

lemma lsRun_no_stop_before (cfg : LSConfig) (since : Int) :
    ∀ (pbs : List (List BackendStream)) (st : LSState) (j : Nat),
      1 ≤ j → j < (lsRun cfg since st pbs).2 →
      lsStop since ((pbs.take j).foldl (lsProcessPage cfg since) st)
        = false := by
  intro pbs
  induction pbs with
  | nil =>
    intro st j h1 h2
    simp [lsRun] at h2
  | cons bs rest ih =>
    intro st j h1 h2
    by_cases hstop : lsStop since (lsProcessPage cfg since st bs)
    · simp [lsRun, hstop] at h2
      omega
    · simp only [lsRun, hstop, if_false, Bool.false_eq_true] at h2
      rcases Nat.exists_eq_add_of_le h1 with ⟨j', rfl⟩
      rw [Nat.add_comm 1 j', List.take_succ_cons, List.foldl_cons]
      rcases Nat.eq_zero_or_pos j' with hj | hj
      · subst hj
        simpa using (Bool.not_eq_true _).mp hstop
      · exact ih (lsProcessPage cfg since st bs) j' hj (by omega)

lemma listStreamsLoop_eq_lsRun (cfg : LSConfig) (since : Int)
    (hpre : cfg.logStreamNamePfx = "") :
    ∀ (pbs : List (List BackendStream)) (st : LSState),
      listStreamsLoop cfg since st (pbs.map StreamPage.ok)
        = ⟨.ok (lsRun cfg since st pbs).1.streams,
           (lsRun cfg since st pbs).2⟩ := by
  intro pbs
  induction pbs with
  | nil => intro st; simp [listStreamsLoop, lsRun]
  | cons bs rest ih =>
    intro st
    by_cases hstop : lsStop since (lsProcessPage cfg since st bs)
    · simp [listStreamsLoop, lsRun, hpre, hstop]
    · simp [listStreamsLoop, lsRun, hpre, hstop, ih]

lemma listStreamsLoop_notFound (cfg : LSConfig) (since : Int) :
    ∀ (pre : List (List BackendStream)) (st : LSState)
      (rest : List StreamPage),
      (listStreamsLoop cfg since st
          (pre.map StreamPage.ok ++
            StreamPage.resourceNotFound :: rest)).result ≠ .error () ∧
      ((listStreamsLoop cfg since st
          (pre.map StreamPage.ok ++
            StreamPage.resourceNotFound :: rest)).pagesFetched
          = pre.length + 1 →
        (listStreamsLoop cfg since st
            (pre.map StreamPage.ok ++
              StreamPage.resourceNotFound :: rest)).result
          = .ok ((pre.foldl (lsProcessPage cfg since) st).streams)) := by
  intro pre
  induction pre with
  | nil =>
    intro st rest
    exact ⟨fun h => Except.noConfusion h, fun _ => rfl⟩
  | cons bs pre' ih =>
    intro st rest
    simp only [List.map_cons, List.cons_append]
    by_cases hpfx : cfg.logStreamNamePfx ≠ ""
    · have hval : listStreamsLoop cfg since st
          (StreamPage.ok bs ::
            (pre'.map StreamPage.ok ++ StreamPage.resourceNotFound :: rest))
          = ⟨.ok (lsProcessPage cfg since st bs).streams, 1⟩ := by
        simp [listStreamsLoop, hpfx]
      rw [hval]
      refine ⟨fun h => Except.noConfusion h, fun h => ?_⟩
      have h' : 1 = (bs :: pre').length + 1 := h
      simp at h'
    · by_cases hstop : lsStop since (lsProcessPage cfg since st bs)
      · have hval : listStreamsLoop cfg since st
            (StreamPage.ok bs ::
              (pre'.map StreamPage.ok ++ StreamPage.resourceNotFound :: rest))
            = ⟨.ok (lsProcessPage cfg since st bs).streams, 1⟩ := by
          simp [listStreamsLoop, hpfx, hstop]
        rw [hval]
        refine ⟨fun h => Except.noConfusion h, fun h => ?_⟩
        have h' : 1 = (bs :: pre').length + 1 := h
        simp at h'
      · have hval : listStreamsLoop cfg since st
            (StreamPage.ok bs ::
              (pre'.map StreamPage.ok ++ StreamPage.resourceNotFound :: rest))
            = ⟨(listStreamsLoop cfg since (lsProcessPage cfg since st bs)
                  (pre'.map StreamPage.ok ++
                    StreamPage.resourceNotFound :: rest)).result,
               (listStreamsLoop cfg since (lsProcessPage cfg since st bs)
                  (pre'.map StreamPage.ok ++
                    StreamPage.resourceNotFound :: rest)).pagesFetched + 1⟩ := by
          simp [listStreamsLoop, hpfx, hstop]
        rw [hval]
        obtain ⟨ih1, ih2⟩ := ih (lsProcessPage cfg since st bs) rest
        refine ⟨ih1, fun h => ?_⟩
        have h' : (listStreamsLoop cfg since (lsProcessPage cfg since st bs)
            (pre'.map StreamPage.ok ++
              StreamPage.resourceNotFound :: rest)).pagesFetched + 1
            = (bs :: pre').length + 1 := h
        have h'' : (listStreamsLoop cfg since (lsProcessPage cfg since st bs)
            (pre'.map StreamPage.ok ++
              StreamPage.resourceNotFound :: rest)).pagesFetched
            = pre'.length + 1 := by
          simp only [List.length_cons] at h'
          omega
        rw [ih2 h'', List.foldl_cons]

lemma listStreamsLoop_mem (cfg : LSConfig) (since : Int) :
    ∀ (pages : List StreamPage) (st : LSState) (streams : List LogStream),
      (listStreamsLoop cfg since st pages).result = .ok streams →
      ∀ ls ∈ streams,
        ls ∈ st.streams ∨
          ∃ s, s ∈ pagesStreams pages ∧ streamHasNilField s = false ∧
            ls = mkLogStream s := by
  intro pages
  induction pages with
  | nil =>
    intro st streams h ls hls
    simp only [listStreamsLoop, Except.ok.injEq] at h
    subst h
    exact Or.inl hls
  | cons p rest ih =>
    intro st streams h ls hls
    cases p with
    | ok bs =>
      have hsplit :
          ls ∈ (lsProcessPage cfg since st bs).streams ∨
            ∃ s, s ∈ pagesStreams rest ∧ streamHasNilField s = false ∧
              ls = mkLogStream s := by
        simp only [listStreamsLoop] at h
        split at h
        · simp only [Except.ok.injEq] at h
          subst h
          exact Or.inl hls
        · split at h
          · simp only [Except.ok.injEq] at h
            subst h
            exact Or.inl hls
          · rcases ih _ streams h ls hls with hin | hex
            · exact Or.inl hin
            · exact Or.inr hex
      have hpg : pagesStreams (StreamPage.ok bs :: rest)
          = bs ++ pagesStreams rest := rfl
      rcases hsplit with hin | ⟨s, hs, hnil, hmk⟩
      · rcases mem_lsProcessPage_streams cfg since st bs ls hin with
          hin' | ⟨s, hs, hnil, hmk⟩
        · exact Or.inl hin'
        · exact Or.inr ⟨s, by rw [hpg]; exact List.mem_append_left _ hs,
            hnil, hmk⟩
      · exact Or.inr ⟨s, by rw [hpg]; exact List.mem_append_right _ hs,
          hnil, hmk⟩
    | resourceNotFound =>
      simp only [listStreamsLoop, Except.ok.injEq] at h
      subst h
      exact Or.inl hls
    | throttling =>
      simp only [listStreamsLoop, Except.ok.injEq] at h
      subst h
      exact absurd hls (List.not_mem_nil _)
    | otherError =>
      exact Except.noConfusion h

/-! ## Lemmas about the orchestrator's initial pass -/

lemma initialAnnouncePass_spec (lscfg : LSConfig) (since : Int)
    (backend : String → List StreamPage) :
    ∀ (groups : List String),
      (∀ g ∈ groups,
        (listStreams lscfg since (backend g)).result ≠ .error ()) →
      initialAnnouncePass lscfg since backend groups
        = (.ok ((groups.map (fun g =>
              (groupStreamsOk lscfg since backend g).map
                (fun s => (g, s)))).flatten),
           groups.length) := by
  intro groups
  induction groups with
  | nil => intro _; rfl
  | cons g gs ih =>
    intro hok
    have hg := hok g (List.mem_cons_self _ _)
    cases hres : (listStreams lscfg since (backend g)).result with
    | error e =>
      cases e
      exact absurd hres hg
    | ok streams =>
      have hgso : groupStreamsOk lscfg since backend g = streams := by
        simp [groupStreamsOk, hres]
      have ihh := ih (fun q hq => hok q (List.mem_cons_of_mem _ hq))
      simp [initialAnnouncePass, hres, ihh, hgso]

/-! ## Claims -/

/-- Claim C1: in the event loop of a fetch pass, an event whose id the
dedup cache already holds (`Load` true) is discarded and not pushed to
the output channel, and an event id not yet held is stored and pushed
exactly once — so any id occurring once or more within the cache's
retention window yields exactly one pushed event. -/
theorem c1_dedup_exactly_once (c : List (String × Int)) (w : Int)
    (evs : List FLEvent) (e : String) :
    ((processEvents ⟨c, w, []⟩ evs).out.countP (fun ev => ev.eventId == e))
      = if cacheLoad c e then 0
        else min 1 (evs.countP (fun ev => ev.eventId == e)) := by
  simpa using processEvents_countP e evs c w []

/-- Claim C2 counterexample: a pass that observes exactly one event,
with timestamp 100, whose id is already cached leaves the watermark at
50 — the post-pass watermark does not equal the maximum event
timestamp observed in the pass even though events were observed. -/
theorem c2_watermark_cx :
    (processEvents ⟨[("e1", 40)], 50, []⟩ [⟨"e1", 100⟩]).lastEventTime = 50 ∧
    ([⟨"e1", 100⟩] : List FLEvent).map (fun ev => ev.timestamp) = [100] ∧
    ([⟨"e1", 100⟩] : List FLEvent) ≠ [] ∧
    (processEvents ⟨[("e1", 40)], 50, []⟩ [⟨"e1", 100⟩]).lastEventTime
      ≠ 100 := by
  refine ⟨rfl, rfl, by decide, by decide⟩

/-- Claim C2 (amended): after any pass of the event loop the watermark
is at least the pre-pass watermark and equals the maximum of the
pre-pass watermark and the timestamps of the events actually pushed in
the pass (unchanged when nothing is pushed); the watermark also never
decreases across a completed fetch pagination pass, and a tailer's
initial watermark is the configured start time in milliseconds. -/
theorem c2_watermark_monotone (c : List (String × Int)) (w t : Int)
    (evs : List FLEvent) (pages : List FetchPage) (s' : TailState)
    (hrun : runFetchPass ⟨c, w, []⟩ pages = .ok s') :
    w ≤ (processEvents ⟨c, w, []⟩ evs).lastEventTime ∧
    (processEvents ⟨c, w, []⟩ evs).lastEventTime
      = ((processEvents ⟨c, w, []⟩ evs).out.map
          (fun ev => ev.timestamp)).foldl max w ∧
    w ≤ s'.lastEventTime ∧
    tailInitialWatermark t = t * 1000 :=
  ⟨processEvents_w_mono evs ⟨c, w, []⟩,
    processEvents_w_formula evs c w,
    runFetchPass_w_mono pages _ s' hrun, rfl⟩

/-- Witness for `c2_watermark_monotone` at a concrete one-event pass. -/
theorem c2_watermark_monotone_w :
    (50 : Int) ≤ (processEvents ⟨[], 50, []⟩ [⟨"a", 60⟩]).lastEventTime ∧
    (processEvents ⟨[], 50, []⟩ [⟨"a", 60⟩]).lastEventTime
      = ((processEvents ⟨[], 50, []⟩ [⟨"a", 60⟩]).out.map
          (fun ev => ev.timestamp)).foldl max 50 ∧
    (50 : Int) ≤ (⟨[("a", 60)], 60, [⟨"a", 60⟩]⟩ : TailState).lastEventTime ∧
    tailInitialWatermark 7 = 7 * 1000 :=
  c2_watermark_monotone [] 50 7 [⟨"a", 60⟩] [.ok [⟨"a", 60⟩]]
    ⟨[("a", 60)], 60, [⟨"a", 60⟩]⟩ rfl

/-- Claim C3 counterexample: in prefix mode `ListStreams` stops after
the first page; with two pages whose second page holds a stream that
passes every filter, only one of the two pages is fetched and that
stream is not in the returned list. -/
theorem c3_prefix_cx :
    (listStreams ⟨"p", fun _ => true⟩ 50
        [StreamPage.ok [⟨"p1", some 0, some 0, some 70, some ""⟩],
         StreamPage.ok [⟨"p2", some 0, some 0, some 90, some ""⟩]]).pagesFetched
      = 1 ∧
    ([StreamPage.ok [(⟨"p1", some 0, some 0, some 70, some ""⟩ : BackendStream)],
      StreamPage.ok [⟨"p2", some 0, some 0, some 90, some ""⟩]].length = 2) ∧
    isMatch ⟨"p", fun _ => true⟩ 50 ⟨"p2", some 0, some 0, some 90, some ""⟩
      = true ∧
    (listStreams ⟨"p", fun _ => true⟩ 50
        [StreamPage.ok [⟨"p1", some 0, some 0, some 70, some ""⟩],
         StreamPage.ok [⟨"p2", some 0, some 0, some 90, some ""⟩]]).result
      = .ok [mkLogStream ⟨"p1", some 0, some 0, some 70, some ""⟩] ∧
    mkLogStream ⟨"p2", some 0, some 0, some 90, some ""⟩
      ∉ [mkLogStream ⟨"p1", some 0, some 0, some 70, some ""⟩] := by
  refine ⟨rfl, rfl, rfl, rfl, by decide⟩

/-- Claim C3 (amended): when a stream name prefix is configured,
`ListStreams` consumes exactly one page of the backend stream listing —
pagination stops unconditionally after the first `NextPage` call,
whatever the page holds. -/
theorem c3_prefix_single_page (cfg : LSConfig) (since : Int)
    (pages : List StreamPage) (hpre : cfg.logStreamNamePfx ≠ "")
    (hne : pages ≠ []) :
    (listStreams cfg since pages).pagesFetched = 1 := by
  cases pages with
  | nil => exact absurd rfl hne
  | cons p rest =>
    cases p with
    | ok bs => simp [listStreams, listStreamsLoop, hpre]
    | resourceNotFound => rfl
    | throttling => rfl
    | otherError => rfl

/-- Witness for `c3_prefix_single_page` at a concrete input. -/
theorem c3_prefix_single_page_w :
    (listStreams ⟨"p", fun _ => true⟩ 0
        [StreamPage.ok [⟨"p1", some 0, some 0, some 70, some ""⟩]]).pagesFetched
      = 1 :=
  c3_prefix_single_page ⟨"p", fun _ => true⟩ 0
    [StreamPage.ok [⟨"p1", some 0, some 0, some 70, some ""⟩]]
    (by decide) (by decide)

/-- Claim C4 counterexample: with `since = 50`, a first page whose only
non-empty stream has ingestion time 80 makes the loop exit after one
page because the running minimum 80 is at least `since`; the second
page's stream has ingestion time 60 — at most the examined minimum 80,
so the claim's hypothesis holds — matches the name filter and the
`since` cutoff, yet is missing from the returned list. -/
theorem c4_early_exit_cx :
    (listStreams ⟨"", fun _ => true⟩ 50
        [StreamPage.ok [⟨"A", some 0, some 0, some 80, some ""⟩],
         StreamPage.ok [⟨"B", some 0, some 0, some 60, some ""⟩]]).pagesFetched
      = 1 ∧
    (lsProcessPage ⟨"", fun _ => true⟩ 50 lsInit
        [⟨"A", some 0, some 0, some 80, some ""⟩]).minLastIngestionTime
      = 80 ∧
    (50 : Int) ≤ 80 ∧ (60 : Int) ≤ 80 ∧
    isMatch ⟨"", fun _ => true⟩ 50 ⟨"B", some 0, some 0, some 60, some ""⟩
      = true ∧
    (listStreams ⟨"", fun _ => true⟩ 50
        [StreamPage.ok [⟨"A", some 0, some 0, some 80, some ""⟩],
         StreamPage.ok [⟨"B", some 0, some 0, some 60, some ""⟩]]).result
      = .ok [mkLogStream ⟨"A", some 0, some 0, some 80, some ""⟩] ∧
    mkLogStream ⟨"B", some 0, some 0, some 60, some ""⟩
      ∉ [mkLogStream ⟨"A", some 0, some 0, some 80, some ""⟩] := by
  refine ⟨rfl, rfl, by decide, by decide, rfl, rfl, by decide⟩

/-- Claim C4 (amended): the hypothesis that makes early exit safe must
bound the unexamined streams by `since` itself, not merely by the
minimum examined ingestion time.  In recency mode over error-free
pages, if every non-empty stream in the pages beyond those consumed
has ingestion time strictly below `since`, then the returned list
contains every stream of any page that is non-empty, passes the name
filter and has ingestion time at least `since`. -/
theorem c4_early_exit_safety (cfg : LSConfig) (since : Int)
    (pbs : List (List BackendStream)) (streams : List LogStream)
    (hpre : cfg.logStreamNamePfx = "")
    (hok : (listStreams cfg since (pbs.map StreamPage.ok)).result
      = .ok streams)
    (hstale : ∀ bs ∈ pbs.drop
        ((listStreams cfg since (pbs.map StreamPage.ok)).pagesFetched),
      ∀ s ∈ bs, streamHasNilField s = false →
        s.lastIngestionTime.getD 0 < since) :
    ∀ bs ∈ pbs, ∀ s ∈ bs, isMatch cfg since s = true →
      mkLogStream s ∈ streams := by
  intro bs hbs s hs hmatch
  have heq := listStreamsLoop_eq_lsRun cfg since hpre pbs lsInit
  have hres : (listStreams cfg since (pbs.map StreamPage.ok)).result
      = .ok (lsRun cfg since lsInit pbs).1.streams := by
    rw [listStreams, heq]
  have hpf : (listStreams cfg since (pbs.map StreamPage.ok)).pagesFetched
      = (lsRun cfg since lsInit pbs).2 := by
    rw [listStreams, heq]
  rw [hres] at hok
  injection hok with hok'
  subst hok'
  have hstream_eq : (lsRun cfg since lsInit pbs).1.streams
      = (((pbs.take (lsRun cfg since lsInit pbs).2).map
          (fun bs => (bs.filter (isMatch cfg since)).map
            mkLogStream))).flatten := by
    rw [lsRun_fst cfg since pbs lsInit, foldl_page_streams]
    simp [lsInit]
  have hsplit : bs ∈ pbs.take (lsRun cfg since lsInit pbs).2 ∨
      bs ∈ pbs.drop (lsRun cfg since lsInit pbs).2 := by
    refine List.mem_append.mp ?_
    rw [List.take_append_drop]
    exact hbs
  rcases hsplit with htake | hdrop
  · rw [hstream_eq]
    refine List.mem_flatten.mpr
      ⟨(bs.filter (isMatch cfg since)).map mkLogStream, ?_, ?_⟩
    · exact List.mem_map_of_mem _ htake
    · exact List.mem_map_of_mem _ (List.mem_filter.mpr ⟨hs, hmatch⟩)
  · have hnil := isMatch_not_nil cfg since s hmatch
    have hlt := hstale bs (by rw [hpf]; exact hdrop) s hs hnil
    have hge : since ≤ s.lastIngestionTime.getD 0 := by
      simp only [isMatch, Bool.and_eq_true, decide_eq_true_eq] at hmatch
      exact hmatch.2
    exact absurd hge (not_le.mpr hlt)

/-- Witness for `c4_early_exit_safety` at a one-page input. -/
theorem c4_early_exit_safety_w :
    mkLogStream ⟨"A", some 0, some 0, some 80, some ""⟩
      ∈ [mkLogStream ⟨"A", some 0, some 0, some 80, some ""⟩] :=
  c4_early_exit_safety ⟨"", fun _ => true⟩ 50
    [[⟨"A", some 0, some 0, some 80, some ""⟩]]
    [mkLogStream ⟨"A", some 0, some 0, some 80, some ""⟩]
    rfl rfl
    (by
      have hdrop : List.drop
          ((listStreams ⟨"", fun _ => true⟩ 50
            ([[(⟨"A", some 0, some 0, some 80, some ""⟩ :
              BackendStream)]].map StreamPage.ok)).pagesFetched)
          [[(⟨"A", some 0, some 0, some 80, some ""⟩ : BackendStream)]]
          = [] := rfl
      intro bs hbs
      rw [hdrop] at hbs
      exact absurd hbs (List.not_mem_nil _))
    [⟨"A", some 0, some 0, some 80, some ""⟩]
    (List.mem_singleton.mpr rfl)
    ⟨"A", some 0, some 0, some 80, some ""⟩
    (List.mem_singleton.mpr rfl)
    rfl

/-- Claim C5 counterexample: pagination does not stop after a page
that contributes no matching stream.  With `since = 50` and a name
filter matching only `A` and `D`, page 1 matches `A` (and sees a
non-matching stream with ingestion 20, keeping the minimum below
`since`), page 2 contributes no match, and the loop still fetches
page 3. -/
theorem c5_stop_cx :
    (listStreams ⟨"", fun n => n == "A" || n == "D"⟩ 50
        [StreamPage.ok [⟨"A", some 0, some 0, some 100, some ""⟩,
                        ⟨"B", some 0, some 0, some 20, some ""⟩],
         StreamPage.ok [⟨"C", some 0, some 0, some 10, some ""⟩],
         StreamPage.ok [⟨"D", some 0, some 0, some 60, some ""⟩]]).pagesFetched
      = 3 ∧
    ([(⟨"C", some 0, some 0, some 10, some ""⟩ : BackendStream)].any
        (isMatch ⟨"", fun n => n == "A" || n == "D"⟩ 50) = false) ∧
    ¬((listStreams ⟨"", fun n => n == "A" || n == "D"⟩ 50
        [StreamPage.ok [⟨"A", some 0, some 0, some 100, some ""⟩,
                        ⟨"B", some 0, some 0, some 20, some ""⟩],
         StreamPage.ok [⟨"C", some 0, some 0, some 10, some ""⟩],
         StreamPage.ok [⟨"D", some 0, some 0, some 60, some ""⟩]]).pagesFetched
      ≤ 2) := by
  refine ⟨rfl, rfl, by decide⟩

/-- Claim C5 (amended): in recency mode over error-free pages the loop
consumes at least one and at most all pages; it consumes fewer than
all pages only when the stop test holds after the last page consumed,
and the stop test fails after every earlier page; the stop test after
`j` pages holds exactly when the cumulative minimum ingestion time
over all non-empty streams examined is at least `since`, or when no
page so far — not merely the current page — has contributed a
matching stream. -/
theorem c5_stop_characterization (cfg : LSConfig) (since : Int)
    (pbs : List (List BackendStream)) (hpre : cfg.logStreamNamePfx = "") :
    (listStreams cfg since (pbs.map StreamPage.ok)).pagesFetched
      ≤ pbs.length ∧
    (pbs ≠ [] →
      1 ≤ (listStreams cfg since (pbs.map StreamPage.ok)).pagesFetched) ∧
    ((listStreams cfg since (pbs.map StreamPage.ok)).pagesFetched
        = pbs.length ∨
      lsStop since ((pbs.take
          (listStreams cfg since (pbs.map StreamPage.ok)).pagesFetched).foldl
          (lsProcessPage cfg since) lsInit) = true) ∧
    (∀ j, 1 ≤ j →
      j < (listStreams cfg since (pbs.map StreamPage.ok)).pagesFetched →
      lsStop since ((pbs.take j).foldl (lsProcessPage cfg since) lsInit)
        = false) ∧
    (∀ j, lsStop since ((pbs.take j).foldl (lsProcessPage cfg since) lsInit)
        = (decide (since ≤
              (pbs.take j).foldl pageMinIng 9223372036854775807) ||
            !((pbs.take j).any (fun bs => bs.any (isMatch cfg since))))) := by
  have heq := listStreamsLoop_eq_lsRun cfg since hpre pbs lsInit
  have hpf : (listStreams cfg since (pbs.map StreamPage.ok)).pagesFetched
      = (lsRun cfg since lsInit pbs).2 := by
    rw [listStreams, heq]
  refine ⟨?_, ?_, ?_, ?_, ?_⟩
  · rw [hpf]
    exact lsRun_le_len cfg since pbs lsInit
  · intro hne
    rw [hpf]
    exact lsRun_pos cfg since pbs lsInit hne
  · rw [hpf]
    rcases lsRun_last cfg since pbs lsInit with h | h
    · exact Or.inl h
    · right
      rw [← lsRun_fst cfg since pbs lsInit]
      exact h
  · intro j h1 h2
    rw [hpf] at h2
    exact lsRun_no_stop_before cfg since pbs lsInit j h1 h2
  · intro j
    simp only [lsStop]
    rw [foldl_page_min cfg since (pbs.take j) lsInit,
      foldl_page_hasUpd cfg since (pbs.take j) lsInit]
    simp [lsInit]

/-- Witness for `c5_stop_characterization` at a one-page input. -/
theorem c5_stop_characterization_w :
    (listStreams ⟨"", fun _ => true⟩ 50
        ([[(⟨"A", some 0, some 0, some 80, some ""⟩ :
          BackendStream)]].map StreamPage.ok)).pagesFetched ≤ 1 ∧
    1 ≤ (listStreams ⟨"", fun _ => true⟩ 50
        ([[(⟨"A", some 0, some 0, some 80, some ""⟩ :
          BackendStream)]].map StreamPage.ok)).pagesFetched := by
  have h := c5_stop_characterization ⟨"", fun _ => true⟩ 50
    [[⟨"A", some 0, some 0, some 80, some ""⟩]] rfl
  exact ⟨h.1, h.2.1 (by decide)⟩

/-- Claim C6 counterexample: a group-not-found condition on the second
page makes `ListStreams` return the streams accumulated from the first
page — a non-empty list, not the empty list. -/
theorem c6_notfound_cx :
    (listStreams ⟨"", fun n => n == "A"⟩ 50
        [StreamPage.ok [⟨"A", some 0, some 0, some 100, some ""⟩,
                        ⟨"B", some 0, some 0, some 10, some ""⟩],
         StreamPage.resourceNotFound]).result
      = .ok [mkLogStream ⟨"A", some 0, some 0, some 100, some ""⟩] ∧
    [mkLogStream ⟨"A", some 0, some 0, some 100, some ""⟩]
      ≠ ([] : List LogStream) ∧
    (listStreams ⟨"", fun n => n == "A"⟩ 50
        [StreamPage.ok [⟨"A", some 0, some 0, some 100, some ""⟩,
                        ⟨"B", some 0, some 0, some 10, some ""⟩],
         StreamPage.resourceNotFound]).pagesFetched = 2 := by
  refine ⟨rfl, by decide, rfl⟩

/-- Claim C6 (amended): a group-not-found condition signalled on any
page while `ListStreams` is paginating is never surfaced as a failure.
For every sequence of pages placing the condition after an arbitrary
run of ordinary pages `pre` and before an arbitrary remainder `rest`
(which may hold further errors — it is never examined): the result is
not an error; whenever pagination actually reaches the not-found page
(it consumed all of `pre` and then one more page), the result is
exactly the streams accumulated from all the earlier pages; and when
the condition arises on the first page the result is the empty list. -/
theorem c6_notfound_benign (cfg : LSConfig) (since : Int)
    (pre : List (List BackendStream)) (rest : List StreamPage) :
    (listStreams cfg since
        (pre.map StreamPage.ok ++
          StreamPage.resourceNotFound :: rest)).result ≠ .error () ∧
    ((listStreams cfg since
        (pre.map StreamPage.ok ++
          StreamPage.resourceNotFound :: rest)).pagesFetched
        = pre.length + 1 →
      (listStreams cfg since
          (pre.map StreamPage.ok ++
            StreamPage.resourceNotFound :: rest)).result
        = .ok ((pre.foldl (lsProcessPage cfg since) lsInit).streams)) ∧
    (listStreams cfg since (StreamPage.resourceNotFound :: rest)).result
      = .ok [] :=
  ⟨(listStreamsLoop_notFound cfg since pre lsInit rest).1,
   (listStreamsLoop_notFound cfg since pre lsInit rest).2,
   rfl⟩

/-- Witness for `c6_notfound_benign`: a matching stream on page 1, the
not-found condition on page 2 and an unclassified error page after it
(never reached) yield the accumulated non-empty list and no error. -/
theorem c6_notfound_benign_w :
    (listStreams ⟨"", fun n => n == "A"⟩ 50
        ([[(⟨"A", some 0, some 0, some 100, some ""⟩ : BackendStream),
           ⟨"B", some 0, some 0, some 10, some ""⟩]].map StreamPage.ok ++
          StreamPage.resourceNotFound :: [StreamPage.otherError])).result
      ≠ .error () ∧
    (listStreams ⟨"", fun n => n == "A"⟩ 50
        ([[(⟨"A", some 0, some 0, some 100, some ""⟩ : BackendStream),
           ⟨"B", some 0, some 0, some 10, some ""⟩]].map StreamPage.ok ++
          StreamPage.resourceNotFound :: [StreamPage.otherError])).result
      = .ok [mkLogStream ⟨"A", some 0, some 0, some 100, some ""⟩] ∧
    (listStreams ⟨"", fun n => n == "A"⟩ 50
        (StreamPage.resourceNotFound :: [StreamPage.otherError])).result
      = .ok [] := by
  have h := c6_notfound_benign ⟨"", fun n => n == "A"⟩ 50
    [[⟨"A", some 0, some 0, some 100, some ""⟩,
      ⟨"B", some 0, some 0, some 10, some ""⟩]] [StreamPage.otherError]
  exact ⟨h.1, h.2.1 rfl, h.2.2⟩

/-- Claim C7 counterexample: the initial per-group discovery pass of
`Tail` consumes one shared tick for its single group — not zero. -/
theorem c7_tick_cx :
    (initialAnnouncePass ⟨"", fun _ => true⟩ 0 (fun _ => []) ["g1"]).2
      = 1 ∧ (1 : Nat) ≠ 0 :=
  ⟨rfl, by decide⟩

/-- Claim C7 (amended): when no group's listing fails, the initial
discovery pass announces, per group in order, exactly the streams
`ListStreams` returns for it, and consumes exactly one shared tick per
group; the tailer watermark is initialized from the configured start
time alone. -/
theorem c7_initial_pass (lscfg : LSConfig) (since : Int)
    (backend : String → List StreamPage) (groups : List String)
    (hok : ∀ g ∈ groups,
      (listStreams lscfg since (backend g)).result ≠ .error ()) :
    initialAnnouncePass lscfg since backend groups
      = (.ok ((groups.map (fun g =>
            (groupStreamsOk lscfg since backend g).map
              (fun s => (g, s)))).flatten),
         groups.length) ∧
    (∀ t : Int, tailInitialWatermark t = t * 1000) :=
  ⟨initialAnnouncePass_spec lscfg since backend groups hok, fun _ => rfl⟩

/-- Witness for `c7_initial_pass` at a concrete one-group input. -/
theorem c7_initial_pass_w :
    initialAnnouncePass ⟨"", fun _ => true⟩ 0 (fun _ => []) ["g1"]
      = (.ok ((["g1"].map (fun g =>
            (groupStreamsOk ⟨"", fun _ => true⟩ 0 (fun _ => []) g).map
              (fun s => (g, s)))).flatten), 1) :=
  (c7_initial_pass ⟨"", fun _ => true⟩ 0 (fun _ => []) ["g1"]
    (fun _ _ h => Except.noConfusion h)).1

/-- Claim C8 counterexample: with the end time configured at second
1000000 — so the fetch is bounded by millisecond 1000000000 — a single
completed pass whose only event has timestamp 60 makes the tailer
finish for good with its watermark at 60, far below the configured end
time: `Done` is reached although the end time is not. -/
theorem c8_end_not_reached_cx :
    (tailIteration ⟨0, some 1000000⟩ ⟨"", fun _ => true⟩ ⟨[], 0, []⟩
        [StreamPage.ok [⟨"A", some 0, some 0, some 80, some ""⟩]]
        [FetchPage.ok [⟨"e1", 60⟩]]).outcome = TailOutcome.finishedEnd ∧
    (tailIteration ⟨0, some 1000000⟩ ⟨"", fun _ => true⟩ ⟨[], 0, []⟩
        [StreamPage.ok [⟨"A", some 0, some 0, some 80, some ""⟩]]
        [FetchPage.ok [⟨"e1", 60⟩]]).state.lastEventTime = 60 ∧
    fetchEndTime ⟨0, some 1000000⟩ = some 1000000000 ∧
    (60 : Int) < 1000000000 := by
  refine ⟨rfl, rfl, rfl, by decide⟩

/-- Claim C8 (amended): an iteration of the tail loop finishes for
good exactly when an end time is configured and a fetch pass completes
— the code returns after the first completed pass whose fetch request
is bounded by the configured end time, whether or not that end time
has been reached; when no end time is configured, a completed pass
loops back to waiting. -/
theorem c8_done_only_with_end (cfg : TailConfig) (lscfg : LSConfig)
    (st : TailState) (streamPages : List StreamPage)
    (fetchPages : List FetchPage) :
    ((tailIteration cfg lscfg st streamPages fetchPages).outcome
        = TailOutcome.finishedEnd →
      cfg.endTimeSec.isSome = true ∧
      ∃ streams s',
        (listStreams lscfg st.lastEventTime streamPages).result
          = .ok streams ∧
        0 < streams.length ∧ streams.length ≤ 100 ∧
        runFetchPass st fetchPages = .ok s') ∧
    (∀ (streams : List LogStream) (s' : TailState),
      (listStreams lscfg st.lastEventTime streamPages).result = .ok streams →
      0 < streams.length → streams.length ≤ 100 →
      runFetchPass st fetchPages = .ok s' →
      (tailIteration cfg lscfg st streamPages fetchPages).outcome
        = (if cfg.endTimeSec.isSome then TailOutcome.finishedEnd
           else TailOutcome.nextWaiting)) := by
  constructor
  · intro h
    cases hres : (listStreams lscfg st.lastEventTime streamPages).result with
    | error e =>
      simp only [tailIteration, hres] at h
      simp at h
    | ok streams =>
      simp only [tailIteration, hres] at h
      by_cases h0 : streams.length = 0
      · rw [if_pos h0] at h
        simp at h
      · rw [if_neg h0] at h
        by_cases hcap : 100 < streams.length
        · rw [if_pos hcap] at h
          simp at h
        · rw [if_neg hcap] at h
          cases hrun : runFetchPass st fetchPages with
          | error e =>
            rw [hrun] at h
            simp at h
          | ok s' =>
            by_cases hend : cfg.endTimeSec.isSome
            · exact ⟨hend, streams, s', rfl, by omega, by omega, rfl⟩
            · rw [hrun] at h
              simp [Bool.eq_false_iff.mpr hend] at h
  · intro streams s' hls hpos hle hrun
    simp only [tailIteration, hls]
    rw [if_neg (by omega : ¬streams.length = 0),
      if_neg (not_lt.mpr hle), hrun]

/-- Witness for `c8_done_only_with_end`: a completed one-stream,
one-page pass with an end time configured finishes for good. -/
theorem c8_done_only_with_end_w :
    (tailIteration ⟨0, some 200⟩ ⟨"", fun _ => true⟩ ⟨[], 0, []⟩
        [StreamPage.ok [⟨"A", some 0, some 0, some 80, some ""⟩]]
        [FetchPage.ok []]).outcome
      = (if (⟨0, some 200⟩ : TailConfig).endTimeSec.isSome then
           TailOutcome.finishedEnd
         else TailOutcome.nextWaiting) :=
  (c8_done_only_with_end ⟨0, some 200⟩ ⟨"", fun _ => true⟩ ⟨[], 0, []⟩
      [StreamPage.ok [⟨"A", some 0, some 0, some 80, some ""⟩]]
      [FetchPage.ok []]).2
    [mkLogStream ⟨"A", some 0, some 0, some 80, some ""⟩] ⟨[], 0, []⟩
    rfl (by decide) (by decide) rfl

/-- Claim C9: when stream discovery yields more than 100 matched
streams, the tail loop iteration fails fatally with the cap-exceeded
outcome, leaves the state untouched and runs no fetch; with between 1
and 100 matched streams it proceeds to build and run the fetch. -/
theorem c9_stream_cap (cfg : TailConfig) (lscfg : LSConfig)
    (st : TailState) (streamPages : List StreamPage)
    (fetchPages : List FetchPage) (streams : List LogStream)
    (hls : (listStreams lscfg st.lastEventTime streamPages).result
      = .ok streams) :
    (100 < streams.length →
      tailIteration cfg lscfg st streamPages fetchPages
        = ⟨TailOutcome.streamCapExceeded, st, false⟩) ∧
    (0 < streams.length → streams.length ≤ 100 →
      (tailIteration cfg lscfg st streamPages fetchPages).fetchAttempted
        = true) := by
  constructor
  · intro hcap
    simp only [tailIteration, hls]
    rw [if_neg (by omega : ¬streams.length = 0), if_pos hcap]
  · intro hpos hle
    simp only [tailIteration, hls]
    rw [if_neg (by omega : ¬streams.length = 0), if_neg (not_lt.mpr hle)]
    cases hrun : runFetchPass st fetchPages with
    | error e => rfl
    | ok s' => rfl

set_option maxRecDepth 8000 in
/-- Witness for `c9_stream_cap`: 101 distinct matching streams make
the iteration fail with the cap outcome and no fetch. -/
theorem c9_stream_cap_w :
    (listStreams ⟨"", fun _ => true⟩ 0
        [StreamPage.ok ((List.range 101).map (fun i =>
          ⟨Nat.repr i, some 0, some 0, some 5, some ""⟩))]).result
      = .ok (((List.range 101).map (fun i =>
          (⟨Nat.repr i, some 0, some 0, some 5, some ""⟩ :
            BackendStream))).map mkLogStream) ∧
    tailIteration ⟨0, none⟩ ⟨"", fun _ => true⟩ ⟨[], 0, []⟩
        [StreamPage.ok ((List.range 101).map (fun i =>
          ⟨Nat.repr i, some 0, some 0, some 5, some ""⟩))] []
      = ⟨TailOutcome.streamCapExceeded, ⟨[], 0, []⟩, false⟩ := by
  refine ⟨rfl, ?_⟩
  exact (c9_stream_cap ⟨0, none⟩ ⟨"", fun _ => true⟩ ⟨[], 0, []⟩
      [StreamPage.ok ((List.range 101).map (fun i =>
        ⟨Nat.repr i, some 0, some 0, some 5, some ""⟩))] []
      (((List.range 101).map (fun i =>
        (⟨Nat.repr i, some 0, some 0, some 5, some ""⟩ :
          BackendStream))).map mkLogStream)
      rfl).1 (by simp)

/-- Claim C10: every `LogStream` returned by `ListStreams` is built
from some backend stream of the fetched pages with its
`LastEventTimestamp` field set to that stream's `LastIngestionTime`
(all other optional fields `nil`), so the timestamp a new-stream
announcement displays is the stream's ingestion time. -/
theorem c10_announced_time_is_ingestion (cfg : LSConfig) (since : Int)
    (pages : List StreamPage) (streams : List LogStream)
    (hok : (listStreams cfg since pages).result = .ok streams) :
    ∀ ls ∈ streams, ∃ s, s ∈ pagesStreams pages ∧
      streamHasNilField s = false ∧ ls = mkLogStream s ∧
      showNewStreamTime ls = s.lastIngestionTime := by
  intro ls hls
  rcases listStreamsLoop_mem cfg since pages lsInit streams hok ls hls with
    hin | ⟨s, hs, hnil, hmk⟩
  · exact absurd hin (List.not_mem_nil _)
  · subst hmk
    exact ⟨s, hs, hnil, rfl, rfl⟩

/-- Witness for `c10_announced_time_is_ingestion` at a concrete
input. -/
theorem c10_announced_time_is_ingestion_w :
    ∃ s, s ∈ pagesStreams
        [StreamPage.ok [⟨"A", some 0, some 0, some 80, some ""⟩]] ∧
      streamHasNilField s = false ∧
      mkLogStream ⟨"A", some 0, some 0, some 80, some ""⟩
        = mkLogStream s ∧
      showNewStreamTime (mkLogStream ⟨"A", some 0, some 0, some 80, some ""⟩)
        = s.lastIngestionTime :=
  c10_announced_time_is_ingestion ⟨"", fun _ => true⟩ 50
    [StreamPage.ok [⟨"A", some 0, some 0, some 80, some ""⟩]]
    [mkLogStream ⟨"A", some 0, some 0, some 80, some ""⟩] rfl
    (mkLogStream ⟨"A", some 0, some 0, some 80, some ""⟩)
    (List.mem_singleton.mpr rfl)
